import Mathlib

/-!
Verification of the CoordConversions library (TypeScript) against its
natural-language specification.  The source (src/src/index.ts and the
identical copies in src/src/formatters.ts) is shallowly embedded here:
JavaScript numbers are modelled as rationals, `toFixed`/`Math.round`
style rounding as round-half-up on ℚ, fallible functions return
`Except CoordError`.
-/

/-- `AngleKind` enum (`LAT = "lat"`, `LON = "lon"`) from src/types. -/
inductive AngleKind where
  | lat
  | lon
deriving DecidableEq, Repr

/-- `Hemisphere` enum (`N`, `S`, `E`, `W`) from src/types. -/
inductive Hemisphere where
  | N
  | S
  | E
  | W
deriving DecidableEq, Repr

/-- `DD` record: `{ kind, degrees }`. -/
structure DD where
  kind : AngleKind
  degrees : ℚ
deriving DecidableEq, Repr

/-- `DM` record: `{ kind, degrees, minutes, hemi? }`. -/
structure DM where
  kind : AngleKind
  degrees : ℚ
  minutes : ℚ
  hemi : Option Hemisphere
deriving DecidableEq, Repr

/-- `DMS` record: `{ kind, degrees, minutes, seconds, hemi? }`. -/
structure DMS where
  kind : AngleKind
  degrees : ℚ
  minutes : ℚ
  seconds : ℚ
  hemi : Option Hemisphere
deriving DecidableEq, Repr

/-- The distinct `throw new Error(...)` messages of the source, one
constructor per message. -/
inductive CoordError where
  | invalidNumber
  | unsupportedInput
  | minutesOutOfRange
  | secondsOutOfRange
  | axisRange (kind : AngleKind) (deg : ℚ)
  | unrecognizedFormat
deriving DecidableEq, Repr

/-- `DEG_MAX` table: 90 for latitude, 180 for longitude. -/
def DEG_MAX : AngleKind → ℚ
  | .lat => 90
  | .lon => 180

/-- `Math.trunc`: rounds toward zero. -/
def jsTrunc (q : ℚ) : ℤ :=
  if 0 ≤ q then ⌊q⌋ else ⌈q⌉

/-- `Math.sign`: -1, 0 or 1 by the sign of the argument. -/
def mathSign (q : ℚ) : ℚ :=
  if q < 0 then -1 else if 0 < q then 1 else 0

/-- `+x.toFixed(decimals)` on a non-negative number: round to
`decimals` decimal places, half away from zero. -/
def roundTo (decimals : ℕ) (q : ℚ) : ℚ :=
  ((round (q * 10 ^ decimals) : ℤ) : ℚ) / 10 ^ decimals

/-- `dirFromSign(kind, value)` from src: N/S for latitude, E/W for
longitude, non-negative values mapping to N/E. -/
def dirFromSign (kind : AngleKind) (value : ℚ) : Hemisphere :=
  if kind = .lat then (if 0 ≤ value then .N else .S)
  else (if 0 ≤ value then .E else .W)

/-- `applyHemiToSign(value, hemi?)` from src: no hemisphere leaves the
value unchanged; S/W force `-abs`, N/E force `abs`. -/
def applyHemiToSign (value : ℚ) (hemi : Option Hemisphere) : ℚ :=
  match hemi with
  | none => value
  | some h => if h = .S ∨ h = .W then -|value| else |value|

/-- `clampDegrees(kind, deg)` from src: saturate at ±DEG_MAX. -/
def clampDegrees (kind : AngleKind) (deg : ℚ) : ℚ :=
  let max := DEG_MAX kind
  if deg > max then max else if deg < -max then -max else deg

/-- `validateRange(kind, deg)` from src: error unless
`-max ≤ deg ≤ max`. -/
def validateRange (kind : AngleKind) (deg : ℚ) : Except CoordError Unit :=
  let max := DEG_MAX kind
  if deg < -max ∨ deg > max then .error (.axisRange kind deg) else .ok ()

/-- `ddToDM(dd, opts)` from src (decimals and clamp passed explicitly;
the source defaults are decimals = 2, clamp = false). -/
def ddToDM (dd : DD) (decimals : ℕ) (clamp : Bool) : DM :=
  let degVal := if clamp then clampDegrees dd.kind dd.degrees else dd.degrees
  let degInt : ℤ := jsTrunc degVal
  let frac : ℚ := |degVal - (degInt : ℚ)|
  let minutes : ℚ := roundTo decimals (frac * 60)
  if 60 ≤ minutes then
    let rolled : ℤ := if 0 ≤ degInt then degInt + 1 else degInt - 1
    { kind := dd.kind, degrees := |(rolled : ℚ)|, minutes := 0,
      hemi := some (dirFromSign dd.kind (rolled : ℚ)) }
  else
    { kind := dd.kind, degrees := |(degInt : ℚ)|, minutes := minutes,
      hemi := some (dirFromSign dd.kind degVal) }

/-- `ddToDMS(dd, opts)` from src (sequential mutation of
`minutes`/`seconds`/`degreesAbs` written in SSA form). -/
def ddToDMS (dd : DD) (decimals : ℕ) (clamp : Bool) : DMS :=
  let degVal := if clamp then clampDegrees dd.kind dd.degrees else dd.degrees
  let degInt : ℤ := jsTrunc degVal
  let frac : ℚ := |degVal - (degInt : ℚ)|
  let minutes : ℚ := ((⌊frac * 60⌋ : ℤ) : ℚ)
  let seconds : ℚ := roundTo decimals (frac * 3600 - minutes * 60)
  let degreesAbs : ℚ := |(degInt : ℚ)|
  let minutes' : ℚ := if 60 ≤ seconds then minutes + 1 else minutes
  let seconds' : ℚ := if 60 ≤ seconds then 0 else seconds
  let degreesAbs' : ℚ := if 60 ≤ minutes' then degreesAbs + 1 else degreesAbs
  let minutes'' : ℚ := if 60 ≤ minutes' then 0 else minutes'
  { kind := dd.kind, degrees := degreesAbs', minutes := minutes'',
    seconds := seconds', hemi := some (dirFromSign dd.kind degVal) }

/-- `dmToDD(dm)` from src. -/
def dmToDD (dm : DM) : Except CoordError DD :=
  if dm.minutes < 0 ∨ 60 ≤ dm.minutes then .error .minutesOutOfRange
  else
    let base := |dm.degrees| + dm.minutes / 60
    let signed := applyHemiToSign (if dm.degrees < 0 then -base else base) dm.hemi
    match validateRange dm.kind signed with
    | .error e => .error e
    | .ok _ => .ok ⟨dm.kind, signed⟩

/-- `dmsToDD(dms)` from src. -/
def dmsToDD (dms : DMS) : Except CoordError DD :=
  if dms.minutes < 0 ∨ 60 ≤ dms.minutes then .error .minutesOutOfRange
  else if dms.seconds < 0 ∨ 60 ≤ dms.seconds then .error .secondsOutOfRange
  else
    let base := |dms.degrees| + dms.minutes / 60 + dms.seconds / 3600
    let signed := applyHemiToSign (if dms.degrees < 0 then -base else base) dms.hemi
    match validateRange dms.kind signed with
    | .error e => .error e
    | .ok _ => .ok ⟨dms.kind, signed⟩

/-! ### Parser: tokenization of coordinate strings

The source works with JS regexes on the trimmed, upper-cased input:
`\b([NSEW])\b` for the hemisphere letter and the global regex
`[+-]?\d+(?:\.\d+)?` for the numeric tokens, which are then mapped
through `Number`.  Both are modelled as left-to-right scanners over the
character list. -/

/-- The parser accepts `string | number` inputs. -/
inductive JSInput where
  | num (q : ℚ)
  | str (s : String)

/-- JS `\w` character class: ASCII letters, digits and underscore. -/
def isWordChar (c : Char) : Bool :=
  c.isAlphanum || c = '_'

/-- The hemisphere denoted by a single letter, if any. -/
def hemiOfChar (c : Char) : Option Hemisphere :=
  if c = 'N' then some .N
  else if c = 'S' then some .S
  else if c = 'E' then some .E
  else if c = 'W' then some .W
  else none

/-- Word boundary on the left of the current position. -/
def boundaryBefore : Option Char → Bool
  | none => true
  | some p => !isWordChar p

/-- Word boundary on the right of the current position. -/
def boundaryAfter : List Char → Bool
  | [] => true
  | n :: _ => !isWordChar n

/-- Scanner for `raw.match(/\b([NSEW])\b/)`: first standalone N/S/E/W
letter, `prev` being the character before the current position. -/
def findHemiAux : Option Char → List Char → Option Hemisphere
  | _, [] => none
  | prev, c :: rest =>
    match hemiOfChar c with
    | some h =>
      if boundaryBefore prev && boundaryAfter rest then some h
      else findHemiAux (some c) rest
    | none => findHemiAux (some c) rest

/-- First standalone hemisphere letter of the string, if any. -/
def findHemi (cs : List Char) : Option Hemisphere :=
  findHemiAux none cs

/-- Longest digit run at the head of the list, with the remainder. -/
def takeDigits : List Char → List Char × List Char
  | [] => ([], [])
  | c :: rest =>
    if c.isDigit then
      let p := takeDigits rest
      (c :: p.1, p.2)
    else ([], c :: rest)

/-- Optional `(?:\.\d+)` fraction part: consumed only when a digit
follows the dot. -/
def takeFraction : List Char → List Char × List Char
  | '.' :: d :: ds =>
    if d.isDigit then
      let p := takeDigits (d :: ds)
      (p.1, p.2)
    else ([], '.' :: d :: ds)
  | cs => ([], cs)

/-- Does a numeric token `[+-]?\d+(?:\.\d+)?` start at this position? -/
def startsNumber : List Char → Bool
  | [] => false
  | c :: rest =>
    c.isDigit ||
      ((c = '+' || c = '-') &&
        (match rest with
         | d :: _ => d.isDigit
         | [] => false))

/-- Consume one numeric token (as matched text) from the head of the
list; only called where `startsNumber` holds. -/
def takeNumber (cs : List Char) : List Char × List Char :=
  match cs with
  | [] => ([], [])
  | c :: rest =>
    if c = '+' || c = '-' then
      let p := takeDigits rest
      let f := takeFraction p.2
      (if f.1 = [] then c :: p.1 else c :: p.1 ++ '.' :: f.1, f.2)
    else
      let p := takeDigits cs
      let f := takeFraction p.2
      (if f.1 = [] then p.1 else p.1 ++ '.' :: f.1, f.2)

/-- Global scan of `[+-]?\d+(?:\.\d+)?`: all matched token texts in
order of appearance.  The fuel argument is the remaining string length;
every step consumes at least one character. -/
def lexTokensAux : ℕ → List Char → List (List Char)
  | 0, _ => []
  | _ + 1, [] => []
  | fuel + 1, c :: rest =>
    if startsNumber (c :: rest) then
      let p := takeNumber (c :: rest)
      p.1 :: lexTokensAux fuel p.2
    else
      lexTokensAux fuel rest

/-- All numeric token texts of the string (the JS `raw.match(...) ?? []`). -/
def lexTokens (cs : List Char) : List (List Char) :=
  lexTokensAux cs.length cs

/-- Value of a digit run as a natural number. -/
def digitsToNat (ds : List Char) : ℕ :=
  ds.foldl (fun acc c => 10 * acc + (c.toNat - 48)) 0

/-- Split a matched token into sign, integer digits and fraction
digits. -/
def splitToken (cs : List Char) : Bool × List Char × List Char :=
  let body := if cs.head? = some '+' || cs.head? = some '-' then cs.tail else cs
  let p := takeDigits body
  let f := takeFraction p.2
  (cs.head? = some '-', p.1, f.1)

/-- JS `Number` on a matched token `[+-]?\d+(?:\.\d+)?`. -/
def jsNumOfChars (cs : List Char) : ℚ :=
  let t := splitToken cs
  let v : ℚ := (digitsToNat t.2.1 : ℚ) + (digitsToNat t.2.2 : ℚ) / 10 ^ t.2.2.length
  if t.1 then -v else v

/-- JS whitespace trim (`String.prototype.trim`) on both ends. -/
def trimChars (cs : List Char) : List Char :=
  ((cs.dropWhile Char.isWhitespace).reverse.dropWhile Char.isWhitespace).reverse

/-- `toUpperCase` (ASCII, which covers every character the parser
inspects). -/
def upperChars (cs : List Char) : List Char :=
  cs.map Char.toUpper

/-- The anchored fast-path regex `^[+-]?\d+(\.\d+)?$`. -/
def isPlainDecimal (cs : List Char) : Bool :=
  let body := if cs.head? = some '+' || cs.head? = some '-' then cs.tail else cs
  let p := takeDigits body
  match p.1, p.2 with
  | [], _ => false
  | _ :: _, [] => true
  | _ :: _, '.' :: ds =>
    let q := takeDigits ds
    !q.1.isEmpty && q.2.isEmpty
  | _ :: _, _ :: _ => false

/-- Dispatch on the count of extracted numbers (the tail of
`parseToDD` in src after tokenization). -/
def composeFromTokens (nums : List ℚ) (hemi : Option Hemisphere)
    (kind : AngleKind) : Except CoordError DD :=
  match nums with
  | [] => .error .unrecognizedFormat
  | [n0] =>
    let deg := applyHemiToSign n0 hemi
    match validateRange kind deg with
    | .error e => .error e
    | .ok _ => .ok ⟨kind, deg⟩
  | [degPart, minPart] =>
    let minutes := |minPart|
    if 60 ≤ minutes then .error .minutesOutOfRange
    else
      let degAbs : ℚ := ((jsTrunc |degPart| : ℤ) : ℚ)
      let sign0 := mathSign degPart
      let sign1 := if sign0 = 0 then 1 else sign0
      let sign := match hemi with
        | some h => if h = .S ∨ h = .W then (-1 : ℚ) else 1
        | none => sign1
      let deg := sign * (degAbs + minutes / 60)
      match validateRange kind deg with
      | .error e => .error e
      | .ok _ => .ok ⟨kind, deg⟩
  | degPart :: minPart :: secPart :: _ =>
    let minutes := |minPart|
    let seconds := |secPart|
    if 60 ≤ minutes then .error .minutesOutOfRange
    else if 60 ≤ seconds then .error .secondsOutOfRange
    else
      let degAbs : ℚ := ((jsTrunc |degPart| : ℤ) : ℚ)
      let sign0 := mathSign degPart
      let sign1 := if sign0 = 0 then 1 else sign0
      let sign := match hemi with
        | some h => if h = .S ∨ h = .W then (-1 : ℚ) else 1
        | none => sign1
      let deg := sign * (degAbs + minutes / 60 + seconds / 3600)
      match validateRange kind deg with
      | .error e => .error e
      | .ok _ => .ok ⟨kind, deg⟩

/-- `parseToDD(input, kind)` from src. -/
def parseToDD (input : JSInput) (kind : AngleKind) : Except CoordError DD :=
  match input with
  | .num q =>
    match validateRange kind q with
    | .error e => .error e
    | .ok _ => .ok ⟨kind, q⟩
  | .str s =>
    let trimmed := trimChars s.data
    if isPlainDecimal trimmed then
      let degrees := jsNumOfChars trimmed
      match validateRange kind degrees with
      | .error e => .error e
      | .ok _ => .ok ⟨kind, degrees⟩
    else
      let raw := upperChars trimmed
      let hemi := findHemi raw
      let nums := (lexTokens raw).map jsNumOfChars
      composeFromTokens nums hemi kind

/-! ### Formatters

`formatDD`/`formatDM`/`formatDMS` from src/src/formatters.ts render via
template literals; `toFixed` is modelled by `toFixedChars` and the
plain `${number}` interpolation by `jsNumToChars` (exact for every
number with a terminating decimal expansion, which covers all JS
doubles). -/

/-- Decimal digits of a natural number. -/
def natToChars (n : ℕ) : List Char :=
  (Nat.repr n).data

/-- Digits of the fractional part `q ∈ [0, 1)`, most significant
first, stopping at zero (fuel-bounded). -/
def fracDigits : ℕ → ℚ → List Char
  | 0, _ => []
  | fuel + 1, q =>
    if q = 0 then []
    else
      let q10 := q * 10
      let d : ℤ := ⌊q10⌋
      Char.ofNat (48 + d.toNat) :: fracDigits fuel (q10 - (d : ℚ))

/-- JS `${x}` number-to-string interpolation (exact on terminating
decimals; 200 fractional digits of fuel covers every double). -/
def jsNumToChars (q : ℚ) : List Char :=
  let s : List Char := if q < 0 then ['-'] else []
  let a := |q|
  let ip : ℤ := ⌊a⌋
  let fp := a - (ip : ℚ)
  if fp = 0 then s ++ natToChars ip.toNat
  else s ++ natToChars ip.toNat ++ '.' :: fracDigits 200 fp

/-- ES `Number.prototype.toFixed(decimals)`: sign, then the rounded
magnitude with exactly `decimals` fractional digits. -/
def toFixedChars (decimals : ℕ) (q : ℚ) : List Char :=
  let s : List Char := if q < 0 then ['-'] else []
  let n : ℤ := round (|q| * 10 ^ decimals)
  let m := n.toNat
  if decimals = 0 then s ++ natToChars m
  else
    let ip := m / 10 ^ decimals
    let fp := m % 10 ^ decimals
    let fs := natToChars fp
    s ++ natToChars ip ++ '.' :: (List.replicate (decimals - fs.length) '0' ++ fs)

/-- The single letter of a hemisphere value. -/
def hemiChar : Hemisphere → Char
  | .N => 'N'
  | .S => 'S'
  | .E => 'E'
  | .W => 'W'

/-- `formatDD(dd, decimals)` from src (source default decimals = 5). -/
def formatDD (dd : DD) (decimals : ℕ) : String :=
  let hemi := dirFromSign dd.kind dd.degrees
  ⟨toFixedChars decimals |dd.degrees| ++ '°' :: ' ' :: [hemiChar hemi]⟩

/-- `formatDM(dm, decimals)` from src (source default decimals = 2). -/
def formatDM (dm : DM) (decimals : ℕ) : String :=
  let hemi := dm.hemi.getD (dirFromSign dm.kind dm.degrees)
  ⟨jsNumToChars |dm.degrees| ++ '°' :: ' ' ::
    (toFixedChars decimals dm.minutes ++ '\x27' :: ' ' :: [hemiChar hemi])⟩

/-- `formatDMS(dms, decimals)` from src (source default decimals = 2). -/
def formatDMS (dms : DMS) (decimals : ℕ) : String :=
  let hemi := dms.hemi.getD (dirFromSign dms.kind dms.degrees)
  ⟨jsNumToChars |dms.degrees| ++ '°' :: ' ' ::
    (jsNumToChars dms.minutes ++ '\x27' :: ' ' ::
      (toFixedChars decimals dms.seconds ++ '\x22' :: ' ' :: [hemiChar hemi]))⟩

/-! ### Arithmetic helper lemmas -/

theorem jsTrunc_of_nonneg (d : ℚ) (h : 0 ≤ d) : jsTrunc d = ⌊d⌋ := if_pos h

theorem jsTrunc_of_neg (d : ℚ) (h : ¬ 0 ≤ d) : jsTrunc d = ⌈d⌉ := if_neg h

theorem frac_nonneg (d : ℚ) : 0 ≤ |d - (jsTrunc d : ℚ)| := abs_nonneg _

theorem frac_lt_one (d : ℚ) : |d - (jsTrunc d : ℚ)| < 1 := by
  unfold jsTrunc
  split_ifs with h
  · rw [abs_of_nonneg (sub_nonneg.mpr (Int.floor_le d))]
    linarith [Int.lt_floor_add_one d]
  · rw [abs_of_nonpos (sub_nonpos.mpr (Int.le_ceil d))]
    have := Int.ceil_lt_add_one d
    linarith

theorem frac_eq_of_nonneg (d : ℚ) (h : 0 ≤ d) :
    |d - (jsTrunc d : ℚ)| = d - (jsTrunc d : ℚ) := by
  rw [jsTrunc_of_nonneg d h]
  exact abs_of_nonneg (sub_nonneg.mpr (Int.floor_le d))

theorem frac_eq_of_neg (d : ℚ) (h : ¬ 0 ≤ d) :
    |d - (jsTrunc d : ℚ)| = (jsTrunc d : ℚ) - d := by
  rw [jsTrunc_of_neg d h]
  rw [abs_of_nonpos (sub_nonpos.mpr (Int.le_ceil d))]
  ring

theorem roundTo2_close (q : ℚ) : |roundTo 2 q - q| ≤ 1 / 200 := by
  have h := abs_sub_round (q * 10 ^ 2)
  have he : roundTo 2 q - q = -((q * 10 ^ 2 - (round (q * 10 ^ 2) : ℚ)) / 10 ^ 2) := by
    unfold roundTo
    field_simp
    ring
  rw [he, abs_neg, abs_div]
  rw [abs_of_nonneg (by positivity : (0:ℚ) ≤ (10:ℚ) ^ 2)]
  rw [div_le_iff₀ (by positivity)]
  norm_num
  linarith [h]

theorem roundTo2_nonneg (q : ℚ) (h : 0 ≤ q) : 0 ≤ roundTo 2 q := by
  unfold roundTo
  apply div_nonneg _ (by positivity)
  have : (0 : ℤ) ≤ round (q * 10 ^ 2) := by
    rw [round_eq]
    apply Int.floor_nonneg.mpr
    positivity
  exact_mod_cast this

theorem roundTo2_zero : roundTo 2 0 = 0 := by
  unfold roundTo
  norm_num

/-- `applyHemiToSign` after `dirFromSign` forces the sign of `v`. -/
theorem applyHemi_dirFromSign (kind : AngleKind) (v x : ℚ) :
    applyHemiToSign x (some (dirFromSign kind v)) = if 0 ≤ v then |x| else -|x| := by
  unfold dirFromSign applyHemiToSign
  cases kind <;> split_ifs with h1 h2 <;> simp_all

/-- `validateRange` succeeds exactly on in-range values. -/
theorem validateRange_ok (kind : AngleKind) (q : ℚ)
    (h1 : -(DEG_MAX kind) ≤ q) (h2 : q ≤ DEG_MAX kind) :
    validateRange kind q = .ok () := by
  simp only [validateRange]
  rw [if_neg]
  push_neg
  exact ⟨h1, h2⟩

theorem validateRange_ok_abs (kind : AngleKind) (q : ℚ)
    (h : validateRange kind q = .ok ()) : |q| ≤ DEG_MAX kind := by
  simp only [validateRange] at h
  split_ifs at h with hc
  push_neg at hc
  exact abs_le.mpr ⟨hc.1, hc.2⟩

/-- `dmToDD` on a DM with non-negative degrees, in-range minutes and a
derived hemisphere letter. -/
theorem dmToDD_ok (kind : AngleKind) (D m v : ℚ) (hD : 0 ≤ D) (hm0 : 0 ≤ m)
    (hm : m < 60) (hrange : D + m / 60 ≤ DEG_MAX kind) :
    dmToDD ⟨kind, D, m, some (dirFromSign kind v)⟩ =
      .ok ⟨kind, if 0 ≤ v then D + m / 60 else -(D + m / 60)⟩ := by
  have hbase : (0 : ℚ) ≤ D + m / 60 := by positivity
  have hMpos : (0 : ℚ) ≤ DEG_MAX kind := by cases kind <;> norm_num [DEG_MAX]
  simp only [dmToDD]
  rw [if_neg (by push_neg; exact ⟨hm0, hm⟩)]
  rw [if_neg (not_lt.mpr hD), abs_of_nonneg hD, applyHemi_dirFromSign]
  split_ifs with hv
  · rw [abs_of_nonneg hbase, validateRange_ok kind _ (by linarith) hrange]
  · rw [abs_of_nonneg hbase, validateRange_ok kind _ (by linarith) (by linarith)]

/-- `dmsToDD` on a DMS with non-negative degrees, in-range minutes and
seconds and a derived hemisphere letter. -/
theorem dmsToDD_ok (kind : AngleKind) (D m s v : ℚ) (hD : 0 ≤ D) (hm0 : 0 ≤ m)
    (hm : m < 60) (hs0 : 0 ≤ s) (hs : s < 60)
    (hrange : D + m / 60 + s / 3600 ≤ DEG_MAX kind) :
    dmsToDD ⟨kind, D, m, s, some (dirFromSign kind v)⟩ =
      .ok ⟨kind, if 0 ≤ v then D + m / 60 + s / 3600 else -(D + m / 60 + s / 3600)⟩ := by
  have hbase : (0 : ℚ) ≤ D + m / 60 + s / 3600 := by positivity
  have hMpos : (0 : ℚ) ≤ DEG_MAX kind := by cases kind <;> norm_num [DEG_MAX]
  simp only [dmsToDD]
  rw [if_neg (by push_neg; exact ⟨hm0, hm⟩)]
  rw [if_neg (by push_neg; exact ⟨hs0, hs⟩)]
  rw [if_neg (not_lt.mpr hD), abs_of_nonneg hD, applyHemi_dirFromSign]
  split_ifs with hv
  · rw [abs_of_nonneg hbase, validateRange_ok kind _ (by linarith) hrange]
  · rw [abs_of_nonneg hbase, validateRange_ok kind _ (by linarith) (by linarith)]

/-- Evaluation of `ddToDM` when the rounded minutes stay below 60. -/
theorem ddToDM_eval (kind : AngleKind) (d : ℚ) (t : ℤ) (m : ℚ)
    (ht : jsTrunc d = t) (hm : roundTo 2 (|d - (t : ℚ)| * 60) = m) (hlt : m < 60) :
    ddToDM ⟨kind, d⟩ 2 false = ⟨kind, |(t : ℚ)|, m, some (dirFromSign kind d)⟩ := by
  simp only [ddToDM, Bool.false_eq_true, if_false, ht, hm]
  rw [if_neg (not_le.mpr hlt)]

/-- Evaluation of `ddToDM` when the rounded minutes reach 60 (rollover). -/
theorem ddToDM_eval_roll (kind : AngleKind) (d : ℚ) (t : ℤ)
    (ht : jsTrunc d = t) (hm : 60 ≤ roundTo 2 (|d - (t : ℚ)| * 60)) :
    ddToDM ⟨kind, d⟩ 2 false =
      ⟨kind, |((if 0 ≤ t then t + 1 else t - 1 : ℤ) : ℚ)|, 0,
        some (dirFromSign kind ((if 0 ≤ t then t + 1 else t - 1 : ℤ) : ℚ))⟩ := by
  simp only [ddToDM, Bool.false_eq_true, if_false, ht]
  rw [if_pos hm]

/-- Evaluation of `ddToDMS` (both rollover flags decided by
hypotheses `hs60` and `hm60`). -/
theorem ddToDMS_eval (kind : AngleKind) (d : ℚ) (t : ℤ) (m : ℤ) (s : ℚ)
    (ht : jsTrunc d = t) (hm : ⌊|d - (t : ℚ)| * 60⌋ = m)
    (hs : roundTo 2 (|d - (t : ℚ)| * 3600 - (m : ℚ) * 60) = s) :
    ddToDMS ⟨kind, d⟩ 2 false =
      (let m1 : ℚ := if 60 ≤ s then (m : ℚ) + 1 else (m : ℚ)
       let s1 : ℚ := if 60 ≤ s then 0 else s
       let dg1 : ℚ := if 60 ≤ m1 then |(t : ℚ)| + 1 else |(t : ℚ)|
       let m2 : ℚ := if 60 ≤ m1 then 0 else m1
       ⟨kind, dg1, m2, s1, some (dirFromSign kind d)⟩) := by
  simp only [ddToDMS, Bool.false_eq_true, if_false, ht, hm, hs]


theorem ddToDM_45999 : ddToDM ⟨.lat, 45999/1000⟩ 2 false =
    ⟨.lat, 45, 5994/100, some .N⟩ := by
  have ht : jsTrunc (45999/1000 : ℚ) = 45 := by
    rw [jsTrunc_of_nonneg _ (by norm_num)]
    norm_num
  have habs : |(45999/1000 : ℚ) - ((45 : ℤ) : ℚ)| = 999/1000 := by norm_num
  have hm : roundTo 2 (|(45999/1000 : ℚ) - ((45 : ℤ) : ℚ)| * 60) = 5994/100 := by
    rw [habs]
    unfold roundTo
    rw [round_eq]
    norm_num
  rw [ddToDM_eval .lat _ 45 (5994/100) ht hm (by norm_num)]
  norm_num [dirFromSign]

theorem ddToDM_4599999 : ddToDM ⟨.lat, 4599999/100000⟩ 2 false =
    ⟨.lat, 46, 0, some .N⟩ := by
  have ht : jsTrunc (4599999/100000 : ℚ) = 45 := by
    rw [jsTrunc_of_nonneg _ (by norm_num)]
    norm_num
  have habs : |(4599999/100000 : ℚ) - ((45 : ℤ) : ℚ)| = 99999/100000 := by norm_num
  have hm : 60 ≤ roundTo 2 (|(4599999/100000 : ℚ) - ((45 : ℤ) : ℚ)| * 60) := by
    rw [habs]
    unfold roundTo
    rw [round_eq]
    norm_num
  rw [ddToDM_eval_roll .lat _ 45 ht hm]
  norm_num [dirFromSign]

theorem ddToDM_neg_edge : ddToDM ⟨.lat, -99999/100000⟩ 2 false =
    ⟨.lat, 1, 0, some .N⟩ := by
  have ht : jsTrunc (-99999/100000 : ℚ) = 0 := by
    rw [jsTrunc_of_neg _ (by norm_num)]
    norm_num
  have habs : |(-99999/100000 : ℚ) - ((0 : ℤ) : ℚ)| = 99999/100000 := by norm_num
  have hm : 60 ≤ roundTo 2 (|(-99999/100000 : ℚ) - ((0 : ℤ) : ℚ)| * 60) := by
    rw [habs]
    unfold roundTo
    rw [round_eq]
    norm_num
  rw [ddToDM_eval_roll .lat _ 0 ht hm]
  norm_num [dirFromSign]

theorem dmToDD_1_0 : dmToDD ⟨.lat, 1, 0, some .N⟩ = .ok ⟨.lat, 1⟩ := by
  have h := dmToDD_ok .lat 1 0 1 (by norm_num) le_rfl (by norm_num)
    (by norm_num [DEG_MAX])
  rw [show dirFromSign .lat 1 = Hemisphere.N from by norm_num [dirFromSign]] at h
  simpa using h

theorem ddToDM_clamp95 : ddToDM ⟨.lat, 95⟩ 2 true = ⟨.lat, 90, 0, some .N⟩ := by
  have hc : clampDegrees .lat 95 = 90 := by norm_num [clampDegrees, DEG_MAX]
  have ht : jsTrunc (90 : ℚ) = 90 := by
    rw [jsTrunc_of_nonneg _ (by norm_num)]
    norm_num
  have habs : |(90 : ℚ) - ((90 : ℤ) : ℚ)| = 0 := by norm_num
  have hm : roundTo 2 (|(90 : ℚ) - ((90 : ℤ) : ℚ)| * 60) = 0 := by
    rw [habs]
    simpa using roundTo2_zero
  simp only [ddToDM, if_true, hc, ht, hm]
  rw [if_neg (by norm_num)]
  norm_num [dirFromSign]

/-- `parseToDD` on a non-plain-decimal string reduces to the token
dispatch. -/
theorem parseToDD_str_tokens (s : String) (kind : AngleKind)
    (h : isPlainDecimal (trimChars s.data) = false) :
    parseToDD (.str s) kind =
      composeFromTokens ((lexTokens (upperChars (trimChars s.data))).map jsNumOfChars)
        (findHemi (upperChars (trimChars s.data))) kind := by
  simp only [parseToDD, h, Bool.false_eq_true, if_false]

theorem jsNum_neg45 : jsNumOfChars ['-', '4', '5'] = -45 := by
  have h : splitToken ['-', '4', '5'] = (true, ['4', '5'], []) := by decide
  have h2 : digitsToNat ['4', '5'] = 45 := by decide
  have h3 : digitsToNat ([] : List Char) = 0 := by decide
  simp [jsNumOfChars, h, h2, h3]

theorem jsNum_45 : jsNumOfChars ['4', '5'] = 45 := by
  have h : splitToken ['4', '5'] = (false, ['4', '5'], []) := by decide
  have h2 : digitsToNat ['4', '5'] = 45 := by decide
  have h3 : digitsToNat ([] : List Char) = 0 := by decide
  simp [jsNumOfChars, h, h2, h3]

theorem jsNum_30 : jsNumOfChars ['3', '0'] = 30 := by
  have h : splitToken ['3', '0'] = (false, ['3', '0'], []) := by decide
  have h2 : digitsToNat ['3', '0'] = 30 := by decide
  have h3 : digitsToNat ([] : List Char) = 0 := by decide
  simp [jsNumOfChars, h, h2, h3]

theorem parse_neg45_30_N : parseToDD (.str "-45 30 N") .lat = .ok ⟨.lat, 91/2⟩ := by
  rw [parseToDD_str_tokens _ _ (by decide)]
  rw [show lexTokens (upperChars (trimChars ("-45 30 N".data))) =
      [['-', '4', '5'], ['3', '0']] from by decide]
  rw [show findHemi (upperChars (trimChars ("-45 30 N".data))) =
      some Hemisphere.N from by decide]
  simp only [List.map, jsNum_neg45, jsNum_30]
  have hns : ¬ (Hemisphere.N = Hemisphere.S ∨ Hemisphere.N = Hemisphere.W) := by decide
  simp only [composeFromTokens,
    show |(-45 : ℚ)| = 45 from by norm_num,
    show |(30 : ℚ)| = 30 from by norm_num, if_neg hns]
  norm_num [mathSign, jsTrunc, validateRange, DEG_MAX]

theorem parse_45_30_N_lon : parseToDD (.str "45 30 N") .lon = .ok ⟨.lon, 91/2⟩ := by
  rw [parseToDD_str_tokens _ _ (by decide)]
  rw [show lexTokens (upperChars (trimChars ("45 30 N".data))) =
      [['4', '5'], ['3', '0']] from by decide]
  rw [show findHemi (upperChars (trimChars ("45 30 N".data))) =
      some Hemisphere.N from by decide]
  simp only [List.map, jsNum_45, jsNum_30]
  have hns : ¬ (Hemisphere.N = Hemisphere.S ∨ Hemisphere.N = Hemisphere.W) := by decide
  simp only [composeFromTokens,
    show |(45 : ℚ)| = 45 from by norm_num,
    show |(30 : ℚ)| = 30 from by norm_num, if_neg hns]
  norm_num [mathSign, jsTrunc, validateRange, DEG_MAX]

theorem parse_95_lat : parseToDD (.str "95") .lat = .error (.axisRange .lat 95) := by
  have h0 : isPlainDecimal (trimChars ("95".data)) = true := by decide
  have h1 : jsNumOfChars (trimChars ("95".data)) = 95 := by
    have h : splitToken (trimChars ("95".data)) = (false, ['9', '5'], []) := by decide
    have h2 : digitsToNat ['9', '5'] = 95 := by decide
    have h3 : digitsToNat ([] : List Char) = 0 := by decide
    simp [jsNumOfChars, h, h2, h3]
  simp only [parseToDD, h0, if_true, h1]
  have h3 : validateRange .lat 95 = .error (.axisRange .lat 95) := by
    simp only [validateRange, DEG_MAX]
    norm_num
  rw [h3]


theorem fmtDD_ex : formatDD ⟨.lat, 488544/10000⟩ 5 = "48.85440° N" := by
  have habs : |(488544/10000 : ℚ)| = 488544/10000 := by norm_num
  have hr : round ((488544/10000 : ℚ) * 10 ^ 5) = 4885440 := by
    rw [round_eq]
    norm_num
  have hd : dirFromSign .lat (488544/10000 : ℚ) = .N := by norm_num [dirFromSign]
  simp only [formatDD, hd, toFixedChars, habs, hr]
  rw [if_neg (by norm_num : ¬ (488544/10000 : ℚ) < 0)]
  rw [if_neg (by decide : ¬ (5 = 0))]
  decide

theorem fmtDM_ex : formatDM ⟨.lat, 48, 51264/1000, some .N⟩ 2 = "48° 51.26\x27 N" := by
  have habs48 : |(48 : ℚ)| = 48 := by norm_num
  have hip : ⌊(48 : ℚ)⌋ = 48 := by norm_num
  have hfp : (48 : ℚ) - ((48 : ℤ) : ℚ) = 0 := by norm_num
  have habsm : |(51264/1000 : ℚ)| = 51264/1000 := by norm_num
  have hr : round ((51264/1000 : ℚ) * 10 ^ 2) = 5126 := by
    rw [round_eq]
    norm_num
  simp only [formatDM, Option.getD, jsNumToChars, toFixedChars, habs48, hip, hfp,
    habsm, hr, if_true]
  rw [if_neg (by norm_num : ¬ (51264/1000 : ℚ) < 0)]
  rw [if_neg (by decide : ¬ (2 = 0))]
  decide

theorem fmtDMS_ex : formatDMS ⟨.lat, 48, 51, 1584/100, some .N⟩ 2 =
    "48° 51\x27 15.84\x22 N" := by
  have habs48 : |(48 : ℚ)| = 48 := by norm_num
  have hip : ⌊(48 : ℚ)⌋ = 48 := by norm_num
  have hfp : (48 : ℚ) - ((48 : ℤ) : ℚ) = 0 := by norm_num
  have hip51 : ⌊(51 : ℚ)⌋ = 51 := by norm_num
  have habs51 : |(51 : ℚ)| = 51 := by norm_num
  have hfp51 : (51 : ℚ) - ((51 : ℤ) : ℚ) = 0 := by norm_num
  have habss : |(1584/100 : ℚ)| = 1584/100 := by norm_num
  have hr : round ((1584/100 : ℚ) * 10 ^ 2) = 1584 := by
    rw [round_eq]
    norm_num
  simp only [formatDMS, Option.getD, jsNumToChars, toFixedChars, habs48, hip, hfp,
    hip51, habs51, hfp51, habss, hr, if_true]
  rw [if_neg (by norm_num : ¬ (1584/100 : ℚ) < 0)]
  rw [if_neg (by decide : ¬ (2 = 0))]
  decide

/-- Every `ok` result of the token dispatch is within the axis range. -/
theorem composeFromTokens_ok_range (nums : List ℚ) (hemi : Option Hemisphere)
    (kind : AngleKind) (dd : DD) (h : composeFromTokens nums hemi kind = .ok dd) :
    |dd.degrees| ≤ DEG_MAX kind := by
  match nums with
  | [] => simp [composeFromTokens] at h
  | [n0] =>
    simp only [composeFromTokens] at h
    split at h
    · exact absurd h (by simp)
    · rename_i u heq
      cases u
      injection h with h2
      rw [← h2]
      exact validateRange_ok_abs kind _ heq
  | [degPart, minPart] =>
    simp only [composeFromTokens] at h
    split at h
    · exact absurd h (by simp)
    · split at h
      · exact absurd h (by simp)
      · rename_i u heq
        cases u
        injection h with h2
        rw [← h2]
        exact validateRange_ok_abs kind _ heq
  | degPart :: minPart :: secPart :: rest =>
    simp only [composeFromTokens] at h
    split at h
    · exact absurd h (by simp)
    · split at h
      · exact absurd h (by simp)
      · split at h
        · exact absurd h (by simp)
        · rename_i u heq
          cases u
          injection h with h2
          rw [← h2]
          exact validateRange_ok_abs kind _ heq

/-- Every `ok` result of `parseToDD` is within the axis range. -/
theorem parseToDD_ok_range (input : JSInput) (kind : AngleKind) (dd : DD)
    (h : parseToDD input kind = .ok dd) : |dd.degrees| ≤ DEG_MAX kind := by
  match input with
  | .num q =>
    simp only [parseToDD] at h
    split at h
    · exact absurd h (by simp)
    · rename_i u heq
      cases u
      injection h with h2
      rw [← h2]
      exact validateRange_ok_abs kind _ heq
  | .str s =>
    simp only [parseToDD] at h
    split at h
    · split at h
      · exact absurd h (by simp)
      · rename_i u heq
        cases u
        injection h with h2
        rw [← h2]
        exact validateRange_ok_abs kind _ heq
    · exact composeFromTokens_ok_range _ _ _ _ h

/-- `Math.sign(x) || 1` equals −1 for negative x and 1 otherwise. -/
theorem signOr1_eq (d : ℚ) :
    (if mathSign d = 0 then 1 else mathSign d) = if d < 0 then (-1 : ℚ) else 1 := by
  unfold mathSign
  split_ifs <;> first | rfl | simp_all

theorem jsTrunc_abs_nonneg (d : ℚ) : (0 : ℤ) ≤ jsTrunc |d| := by
  rw [jsTrunc_of_nonneg _ (abs_nonneg d)]
  exact Int.floor_nonneg.mpr (abs_nonneg d)

/-- The sign the spec describes: hemisphere letter wins when present,
else the sign of the degree token, zero counting as positive. -/
def hemiSign (hemi : Option Hemisphere) (d : ℚ) : ℚ :=
  match hemi with
  | some hh => if hh = .S ∨ hh = .W then -1 else 1
  | none => if d < 0 then -1 else 1

/-- Two-token dispatch: the degrees of an `ok` result are
`sign * (trunc |deg token| + |min token| / 60)`, the sign taken from
the hemisphere letter when present, else from the degree token (zero
counting as positive). -/
theorem composeFromTokens_two_ok (kind : AngleKind) (d m : ℚ)
    (hemi : Option Hemisphere) (dd : DD)
    (h : composeFromTokens [d, m] hemi kind = .ok dd) :
    dd.degrees = hemiSign hemi d * ((jsTrunc |d| : ℚ) + |m| / 60) := by
  simp only [composeFromTokens] at h
  split at h
  · exact absurd h (by simp)
  · split at h
    · exact absurd h (by simp)
    · injection h with h2
      subst h2
      cases hemi with
      | none =>
        show (if mathSign d = 0 then 1 else mathSign d) * _ = _
        rw [signOr1_eq]
        rfl
      | some hh2 => rfl

/-- Three-token dispatch: same sign rule, seconds added. -/
theorem composeFromTokens_three_ok (kind : AngleKind) (d m s : ℚ) (rest : List ℚ)
    (hemi : Option Hemisphere) (dd : DD)
    (h : composeFromTokens (d :: m :: s :: rest) hemi kind = .ok dd) :
    dd.degrees = hemiSign hemi d * ((jsTrunc |d| : ℚ) + |m| / 60 + |s| / 3600) := by
  simp only [composeFromTokens] at h
  split at h
  · exact absurd h (by simp)
  · split at h
    · exact absurd h (by simp)
    · split at h
      · exact absurd h (by simp)
      · injection h with h2
        subst h2
        cases hemi with
        | none =>
          show (if mathSign d = 0 then 1 else mathSign d) * _ = _
          rw [signOr1_eq]
          rfl
        | some hh2 => rfl

/-- A hemisphere letter, when present, forces the sign of any `ok`
result of the token dispatch, whatever the axis. -/
theorem composeFromTokens_hemi_sign (nums : List ℚ) (hh : Hemisphere)
    (kind : AngleKind) (dd : DD)
    (h : composeFromTokens nums (some hh) kind = .ok dd) :
    ((hh = .N ∨ hh = .E) → 0 ≤ dd.degrees) ∧
      ((hh = .S ∨ hh = .W) → dd.degrees ≤ 0) := by
  have habs : ∀ x : ℚ, (hh = .N ∨ hh = .E) → applyHemiToSign x (some hh) = |x| := by
    intro x hne
    show (if hh = Hemisphere.S ∨ hh = Hemisphere.W then -|x| else |x|) = |x|
    rw [if_neg]
    rcases hne with h1 | h1 <;> rw [h1] <;> decide
  have habs2 : ∀ x : ℚ, (hh = .S ∨ hh = .W) → applyHemiToSign x (some hh) = -|x| := by
    intro x hsw
    show (if hh = Hemisphere.S ∨ hh = Hemisphere.W then -|x| else |x|) = -|x|
    rw [if_pos hsw]
  match nums with
  | [] => simp [composeFromTokens] at h
  | [n0] =>
    simp only [composeFromTokens] at h
    split at h
    · exact absurd h (by simp)
    · injection h with h2
      rw [← h2]
      constructor
      · intro hne
        rw [habs n0 hne]
        exact abs_nonneg n0
      · intro hsw
        rw [habs2 n0 hsw]
        simp [abs_nonneg]
  | [degPart, minPart] =>
    have hpos : (0 : ℚ) ≤ (jsTrunc |degPart| : ℚ) + |minPart| / 60 := by
      have h1 := jsTrunc_abs_nonneg degPart
      have h2 := abs_nonneg minPart
      have h1q : (0 : ℚ) ≤ (jsTrunc |degPart| : ℚ) := by exact_mod_cast h1
      positivity
    simp only [composeFromTokens] at h
    split at h
    · exact absurd h (by simp)
    · split at h
      · exact absurd h (by simp)
      · injection h with h2
        rw [← h2]
        constructor
        · intro hne
          rw [if_neg (by rcases hne with h1 | h1 <;> rw [h1] <;> decide)]
          linarith [hpos]
        · intro hsw
          rw [if_pos hsw]
          linarith [hpos]
  | degPart :: minPart :: secPart :: rest =>
    have hpos : (0 : ℚ) ≤ (jsTrunc |degPart| : ℚ) + |minPart| / 60 + |secPart| / 3600 := by
      have h1 := jsTrunc_abs_nonneg degPart
      have h2 := abs_nonneg minPart
      have h3 := abs_nonneg secPart
      have h1q : (0 : ℚ) ≤ (jsTrunc |degPart| : ℚ) := by exact_mod_cast h1
      positivity
    simp only [composeFromTokens] at h
    split at h
    · exact absurd h (by simp)
    · split at h
      · exact absurd h (by simp)
      · split at h
        · exact absurd h (by simp)
        · injection h with h2
          rw [← h2]
          constructor
          · intro hne
            rw [if_neg (by rcases hne with h1 | h1 <;> rw [h1] <;> decide)]
            linarith [hpos]
          · intro hsw
            rw [if_pos hsw]
            linarith [hpos]

/-- The signed decimal value `dmToDD` computes before validation:
`base = |degrees| + minutes/60`, negated for a negative degrees field,
then passed through `applyHemiToSign`. -/
def dmSigned (dm : DM) : ℚ :=
  applyHemiToSign
    (if dm.degrees < 0 then -(|dm.degrees| + dm.minutes / 60)
     else |dm.degrees| + dm.minutes / 60) dm.hemi

/-- The signed decimal value `dmsToDD` computes before validation. -/
def dmsSigned (dms : DMS) : ℚ :=
  applyHemiToSign
    (if dms.degrees < 0 then -(|dms.degrees| + dms.minutes / 60 + dms.seconds / 3600)
     else |dms.degrees| + dms.minutes / 60 + dms.seconds / 3600) dms.hemi

/-- On in-range minutes, `dmToDD` composes, signs, validates and
returns (never clamping). -/
theorem dmToDD_value (dm : DM) (hm : ¬(dm.minutes < 0 ∨ 60 ≤ dm.minutes)) :
    dmToDD dm =
      if |dmSigned dm| ≤ DEG_MAX dm.kind then .ok ⟨dm.kind, dmSigned dm⟩
      else .error (.axisRange dm.kind (dmSigned dm)) := by
  unfold dmToDD
  rw [if_neg hm]
  simp only [validateRange]
  rw [show applyHemiToSign
      (if dm.degrees < 0 then -(|dm.degrees| + dm.minutes / 60)
       else |dm.degrees| + dm.minutes / 60) dm.hemi = dmSigned dm from rfl]
  by_cases habs : |dmSigned dm| ≤ DEG_MAX dm.kind
  · obtain ⟨h1, h2⟩ := abs_le.mp habs
    rw [if_neg (by push_neg; exact ⟨h1, h2⟩), if_pos habs]
  · rw [if_pos, if_neg habs]
    rw [abs_le] at habs
    push_neg at habs
    by_cases h1 : -(DEG_MAX dm.kind) ≤ dmSigned dm
    · exact Or.inr (habs h1)
    · exact Or.inl (by linarith)

/-- On in-range minutes and seconds, `dmsToDD` composes, signs,
validates and returns (never clamping). -/
theorem dmsToDD_value (dms : DMS) (hm : ¬(dms.minutes < 0 ∨ 60 ≤ dms.minutes))
    (hs : ¬(dms.seconds < 0 ∨ 60 ≤ dms.seconds)) :
    dmsToDD dms =
      if |dmsSigned dms| ≤ DEG_MAX dms.kind then .ok ⟨dms.kind, dmsSigned dms⟩
      else .error (.axisRange dms.kind (dmsSigned dms)) := by
  unfold dmsToDD
  rw [if_neg hm, if_neg hs]
  simp only [validateRange]
  rw [show applyHemiToSign
      (if dms.degrees < 0 then -(|dms.degrees| + dms.minutes / 60 + dms.seconds / 3600)
       else |dms.degrees| + dms.minutes / 60 + dms.seconds / 3600) dms.hemi =
      dmsSigned dms from rfl]
  by_cases habs : |dmsSigned dms| ≤ DEG_MAX dms.kind
  · obtain ⟨h1, h2⟩ := abs_le.mp habs
    rw [if_neg (by push_neg; exact ⟨h1, h2⟩), if_pos habs]
  · rw [if_pos, if_neg habs]
    rw [abs_le] at habs
    push_neg at habs
    by_cases h1 : -(DEG_MAX dms.kind) ≤ dmsSigned dms
    · exact Or.inr (habs h1)
    · exact Or.inl (by linarith)

/-- With minutes and seconds both out of range, `dmsToDD` reports the
minutes error, not the seconds error. -/
theorem dmsToDD_both_out :
    dmsToDD ⟨.lat, 0, 70, 70, none⟩ = .error .minutesOutOfRange := by
  unfold dmsToDD
  rw [if_pos (Or.inr (by norm_num : (60 : ℚ) ≤ 70))]

/-- `dmToDD` raises the minutes error exactly when minutes ∉ [0, 60). -/
theorem dmToDD_minutes_err (dm : DM) :
    dmToDD dm = .error .minutesOutOfRange ↔ (dm.minutes < 0 ∨ 60 ≤ dm.minutes) := by
  constructor
  · intro h
    by_contra hc
    rw [dmToDD_value dm hc] at h
    split_ifs at h
    all_goals simp at h
  · intro hc
    unfold dmToDD
    rw [if_pos hc]

/-- `dmsToDD` raises the minutes error exactly when minutes ∉ [0, 60). -/
theorem dmsToDD_minutes_err (dms : DMS) :
    dmsToDD dms = .error .minutesOutOfRange ↔ (dms.minutes < 0 ∨ 60 ≤ dms.minutes) := by
  constructor
  · intro h
    by_contra hc
    by_cases hs : dms.seconds < 0 ∨ 60 ≤ dms.seconds
    · rw [show dmsToDD dms = .error .secondsOutOfRange from by
        unfold dmsToDD; rw [if_neg hc, if_pos hs]] at h
      simp at h
    · rw [dmsToDD_value dms hc hs] at h
      split_ifs at h
      all_goals simp at h
  · intro hc
    unfold dmsToDD
    rw [if_pos hc]

/-- `dmsToDD` raises the seconds error exactly when minutes are in
range but seconds ∉ [0, 60). -/
theorem dmsToDD_seconds_err (dms : DMS) :
    dmsToDD dms = .error .secondsOutOfRange ↔
      (¬(dms.minutes < 0 ∨ 60 ≤ dms.minutes) ∧ (dms.seconds < 0 ∨ 60 ≤ dms.seconds)) := by
  constructor
  · intro h
    by_cases hc : dms.minutes < 0 ∨ 60 ≤ dms.minutes
    · rw [show dmsToDD dms = .error .minutesOutOfRange from by
        unfold dmsToDD; rw [if_pos hc]] at h
      simp at h
    · refine ⟨hc, ?_⟩
      by_contra hs
      rw [dmsToDD_value dms hc hs] at h
      split_ifs at h
      all_goals simp at h
  · intro ⟨hc, hs⟩
    unfold dmsToDD
    rw [if_neg hc, if_pos hs]

/-! ### Round-trip support -/

theorem abs_jsTrunc_le (d : ℚ) : |(jsTrunc d : ℚ)| ≤ |d| := by
  unfold jsTrunc
  split_ifs with h
  · rw [abs_of_nonneg h,
      abs_of_nonneg (by exact_mod_cast Int.floor_nonneg.mpr h : (0:ℚ) ≤ ((⌊d⌋ : ℤ) : ℚ))]
    exact Int.floor_le d
  · push_neg at h
    have hc : (⌈d⌉ : ℤ) ≤ 0 := Int.ceil_le.mpr (by exact_mod_cast le_of_lt h)
    rw [abs_of_nonpos (le_of_lt h),
      abs_of_nonpos (by exact_mod_cast hc : ((⌈d⌉ : ℤ) : ℚ) ≤ 0)]
    have := Int.le_ceil d
    linarith

theorem abs_jsTrunc_lt (d : ℚ) (hf : 0 < |d - (jsTrunc d : ℚ)|) :
    |(jsTrunc d : ℚ)| < |d| := by
  by_cases h : 0 ≤ d
  · have hfeq := frac_eq_of_nonneg d h
    rw [hfeq] at hf
    have ht0 : (0:ℚ) ≤ (jsTrunc d : ℚ) := by
      rw [jsTrunc_of_nonneg d h]
      exact_mod_cast Int.floor_nonneg.mpr h
    rw [abs_of_nonneg h, abs_of_nonneg ht0]
    linarith
  · have hfeq := frac_eq_of_neg d h
    rw [hfeq] at hf
    have ht0 : (jsTrunc d : ℚ) ≤ 0 := by
      rw [jsTrunc_of_neg d h]
      have hc : (⌈d⌉ : ℤ) ≤ 0 :=
        Int.ceil_le.mpr (by exact_mod_cast le_of_lt (not_le.mp h))
      exact_mod_cast hc
    push_neg at h
    rw [abs_of_nonpos (le_of_lt h), abs_of_nonpos ht0]
    linarith

/-- The DM round-trip: valid except on `(-1, -11999/12000]`, where the
rollover direction flips the sign. -/
theorem dmRoundTrip (kind : AngleKind) (d : ℚ) (hd : |d| ≤ DEG_MAX kind)
    (hex : ¬(-1 < d ∧ d ≤ -(11999/12000))) :
    ∃ r : DD, dmToDD (ddToDM ⟨kind, d⟩ 2 false) = .ok r ∧ |r.degrees - d| ≤ 1/10000 := by
  obtain ⟨Mz, hMz, hM1⟩ : ∃ Mz : ℤ, DEG_MAX kind = (Mz : ℚ) ∧ (1:ℤ) ≤ Mz := by
    cases kind
    · exact ⟨90, by norm_num [DEG_MAX], by norm_num⟩
    · exact ⟨180, by norm_num [DEG_MAX], by norm_num⟩
  have hf0 : 0 ≤ |d - (jsTrunc d : ℚ)| := abs_nonneg _
  have hf1 : |d - (jsTrunc d : ℚ)| < 1 := frac_lt_one d
  have hkey : 0 < |d - (jsTrunc d : ℚ)| → |(jsTrunc d : ℚ)| + 1 ≤ DEG_MAX kind := by
    intro hpos
    have h2 : |(jsTrunc d : ℚ)| < DEG_MAX kind := lt_of_lt_of_le (abs_jsTrunc_lt d hpos) hd
    rw [hMz] at h2 ⊢
    have h3 : |jsTrunc d| < Mz := by
      have h2' : ((|jsTrunc d| : ℤ) : ℚ) < (Mz : ℚ) := by rwa [Int.cast_abs]
      exact_mod_cast h2'
    have h4 : |jsTrunc d| + 1 ≤ Mz := h3
    calc |(jsTrunc d : ℚ)| + 1 = ((|jsTrunc d| + 1 : ℤ) : ℚ) := by
          push_cast [Int.cast_abs]
          ring
      _ ≤ (Mz : ℚ) := by exact_mod_cast h4
  by_cases hm : 60 ≤ roundTo 2 (|d - (jsTrunc d : ℚ)| * 60)
  · -- rollover: the rounded minutes reached 60
    have hc := roundTo2_close (|d - (jsTrunc d : ℚ)| * 60)
    rw [abs_le] at hc
    have hfge : 11999/12000 ≤ |d - (jsTrunc d : ℚ)| := by linarith [hc.1, hc.2]
    have hfpos : 0 < |d - (jsTrunc d : ℚ)| := lt_of_lt_of_le (by norm_num) hfge
    have heval := ddToDM_eval_roll kind d (jsTrunc d) rfl hm
    by_cases hd0 : 0 ≤ d
    · have ht0 : 0 ≤ jsTrunc d := by
        rw [jsTrunc_of_nonneg d hd0]
        exact Int.floor_nonneg.mpr hd0
      rw [if_pos ht0] at heval
      rw [heval]
      have htq : (0:ℚ) ≤ ((jsTrunc d : ℤ) : ℚ) := by exact_mod_cast ht0
      have habs1 : |((jsTrunc d + 1 : ℤ) : ℚ)| = (jsTrunc d : ℚ) + 1 := by
        push_cast
        rw [abs_of_nonneg (by linarith)]
      have hkey2 := hkey hfpos
      rw [abs_of_nonneg htq] at hkey2
      have hrange : |((jsTrunc d + 1 : ℤ) : ℚ)| + (0:ℚ)/60 ≤ DEG_MAX kind := by
        rw [habs1]
        norm_num
        linarith
      rw [dmToDD_ok kind _ 0 _ (abs_nonneg _) le_rfl (by norm_num) hrange]
      refine ⟨_, rfl, ?_⟩
      rw [if_pos (by push_cast; linarith : (0:ℚ) ≤ ((jsTrunc d + 1 : ℤ) : ℚ))]
      rw [habs1]
      have hfeq := frac_eq_of_nonneg d hd0
      rw [hfeq] at hfge hf1
      rw [abs_le]
      constructor <;> [skip; skip] <;> push_cast <;> linarith
    · have htle : jsTrunc d ≤ 0 := by
        rw [jsTrunc_of_neg d hd0]
        exact Int.ceil_le.mpr (by exact_mod_cast le_of_lt (not_le.mp hd0))
      have hfeq := frac_eq_of_neg d hd0
      have htne : jsTrunc d ≠ 0 := by
        intro h0
        apply hex
        rw [hfeq, h0] at hfge hf1
        push_cast at hfge hf1
        constructor <;> linarith
      have ht1 : jsTrunc d ≤ -1 := by omega
      rw [if_neg (not_le.mpr (by omega : jsTrunc d < 0))] at heval
      rw [heval]
      have htq : ((jsTrunc d : ℤ) : ℚ) ≤ 0 := by exact_mod_cast htle
      have habs1 : |((jsTrunc d - 1 : ℤ) : ℚ)| = -(jsTrunc d : ℚ) + 1 := by
        push_cast
        rw [abs_of_nonpos (by linarith)]
        ring
      have hkey2 := hkey hfpos
      rw [abs_of_nonpos htq] at hkey2
      have hrange : |((jsTrunc d - 1 : ℤ) : ℚ)| + (0:ℚ)/60 ≤ DEG_MAX kind := by
        rw [habs1]
        norm_num
        linarith
      rw [dmToDD_ok kind _ 0 _ (abs_nonneg _) le_rfl (by norm_num) hrange]
      refine ⟨_, rfl, ?_⟩
      rw [if_neg (by push_cast; intro hcon; linarith [ht1] :
        ¬ (0:ℚ) ≤ ((jsTrunc d - 1 : ℤ) : ℚ))]
      rw [habs1]
      rw [hfeq] at hfge hf1
      rw [abs_le]
      constructor <;> push_cast <;> linarith
  · -- no rollover
    have hmlt := not_le.mp hm
    have heval := ddToDM_eval kind d (jsTrunc d) _ rfl rfl hmlt
    rw [heval]
    have hm0 : 0 ≤ roundTo 2 (|d - (jsTrunc d : ℚ)| * 60) :=
      roundTo2_nonneg _ (mul_nonneg hf0 (by norm_num))
    have hmc := roundTo2_close (|d - (jsTrunc d : ℚ)| * 60)
    rw [abs_le] at hmc
    have hrange : |(jsTrunc d : ℚ)| + roundTo 2 (|d - (jsTrunc d : ℚ)| * 60) / 60 ≤
        DEG_MAX kind := by
      rcases eq_or_lt_of_le hf0 with hfz | hfpos
      · have hdt : d = (jsTrunc d : ℚ) := by
          have h0 : |d - (jsTrunc d : ℚ)| = 0 := hfz.symm
          have := abs_eq_zero.mp h0
          linarith [sub_eq_zero.mp this]
        have hmz : roundTo 2 (|d - (jsTrunc d : ℚ)| * 60) = 0 := by
          rw [← hfz, zero_mul]
          exact roundTo2_zero
        rw [hmz, ← hdt]
        simpa using hd
      · have hkey2 := hkey hfpos
        have hmd : roundTo 2 (|d - (jsTrunc d : ℚ)| * 60) / 60 < 1 := by linarith
        linarith
    rw [dmToDD_ok kind _ _ d (abs_nonneg _) hm0 hmlt hrange]
    refine ⟨_, rfl, ?_⟩
    by_cases hd0 : 0 ≤ d
    · rw [if_pos hd0]
      have hfeq := frac_eq_of_nonneg d hd0
      have htq : (0:ℚ) ≤ (jsTrunc d : ℚ) := by
        rw [jsTrunc_of_nonneg d hd0]
        exact_mod_cast Int.floor_nonneg.mpr hd0
      rw [abs_of_nonneg htq]
      dsimp only
      rw [hfeq] at hmc
      rw [hfeq, abs_le]
      constructor <;> linarith [hmc.1, hmc.2]
    · rw [if_neg hd0]
      have hfeq := frac_eq_of_neg d hd0
      have htq : (jsTrunc d : ℚ) ≤ 0 := by
        rw [jsTrunc_of_neg d hd0]
        have hc2 : (⌈d⌉ : ℤ) ≤ 0 :=
          Int.ceil_le.mpr (by exact_mod_cast le_of_lt (not_le.mp hd0))
        exact_mod_cast hc2
      rw [abs_of_nonpos htq]
      dsimp only
      rw [hfeq] at hmc
      rw [hfeq, abs_le]
      constructor <;> linarith [hmc.1, hmc.2]

/-- `ddToDMS` when neither seconds nor minutes roll over. -/
theorem ddToDMS_eval_noroll (kind : AngleKind) (d : ℚ) (t m0 : ℤ) (s0 : ℚ)
    (ht : jsTrunc d = t) (hm : ⌊|d - (t : ℚ)| * 60⌋ = m0)
    (hs : roundTo 2 (|d - (t : ℚ)| * 3600 - (m0 : ℚ) * 60) = s0)
    (hslt : s0 < 60) (hmlt : (m0 : ℚ) < 60) :
    ddToDMS ⟨kind, d⟩ 2 false =
      ⟨kind, |(t : ℚ)|, (m0 : ℚ), s0, some (dirFromSign kind d)⟩ := by
  simp only [ddToDMS_eval kind d t m0 s0 ht hm hs,
    if_neg (not_le.mpr hslt), if_neg (not_le.mpr hmlt)]

/-- `ddToDMS` when the rounded seconds reach 60 but the incremented
minutes stay below 60. -/
theorem ddToDMS_eval_sroll (kind : AngleKind) (d : ℚ) (t m0 : ℤ) (s0 : ℚ)
    (ht : jsTrunc d = t) (hm : ⌊|d - (t : ℚ)| * 60⌋ = m0)
    (hs : roundTo 2 (|d - (t : ℚ)| * 3600 - (m0 : ℚ) * 60) = s0)
    (hsge : 60 ≤ s0) (hmlt : (m0 : ℚ) + 1 < 60) :
    ddToDMS ⟨kind, d⟩ 2 false =
      ⟨kind, |(t : ℚ)|, (m0 : ℚ) + 1, 0, some (dirFromSign kind d)⟩ := by
  simp only [ddToDMS_eval kind d t m0 s0 ht hm hs,
    if_pos hsge, if_neg (not_le.mpr hmlt)]

/-- `ddToDMS` when seconds roll into minutes and minutes roll into the
degree magnitude. -/
theorem ddToDMS_eval_droll (kind : AngleKind) (d : ℚ) (t m0 : ℤ) (s0 : ℚ)
    (ht : jsTrunc d = t) (hm : ⌊|d - (t : ℚ)| * 60⌋ = m0)
    (hs : roundTo 2 (|d - (t : ℚ)| * 3600 - (m0 : ℚ) * 60) = s0)
    (hsge : 60 ≤ s0) (hmge : 60 ≤ (m0 : ℚ) + 1) :
    ddToDMS ⟨kind, d⟩ 2 false =
      ⟨kind, |(t : ℚ)| + 1, 0, 0, some (dirFromSign kind d)⟩ := by
  simp only [ddToDMS_eval kind d t m0 s0 ht hm hs,
    if_pos hsge, if_pos hmge]

/-- When the fractional part is positive, the truncated magnitude is at
least one below the axis bound. -/
theorem trunc_succ_le (kind : AngleKind) (d : ℚ) (hd : |d| ≤ DEG_MAX kind)
    (hpos : 0 < |d - (jsTrunc d : ℚ)|) :
    |(jsTrunc d : ℚ)| + 1 ≤ DEG_MAX kind := by
  obtain ⟨Mz, hMz⟩ : ∃ Mz : ℤ, DEG_MAX kind = (Mz : ℚ) := by
    cases kind
    · exact ⟨90, by norm_num [DEG_MAX]⟩
    · exact ⟨180, by norm_num [DEG_MAX]⟩
  have h2 : |(jsTrunc d : ℚ)| < DEG_MAX kind := lt_of_lt_of_le (abs_jsTrunc_lt d hpos) hd
  rw [hMz] at h2 ⊢
  have h3 : |jsTrunc d| < Mz := by
    have h2' : ((|jsTrunc d| : ℤ) : ℚ) < (Mz : ℚ) := by rwa [Int.cast_abs]
    exact_mod_cast h2'
  have h4 : |jsTrunc d| + 1 ≤ Mz := h3
  calc |(jsTrunc d : ℚ)| + 1 = ((|jsTrunc d| + 1 : ℤ) : ℚ) := by
        push_cast [Int.cast_abs]
        ring
    _ ≤ (Mz : ℚ) := by exact_mod_cast h4

/-- The DMS round-trip holds for every valid DD, both axes, both
signs: unlike the DM path, the hemisphere is taken from the original
signed value, so the negative first-degree edge is handled correctly. -/
theorem dmsRoundTrip (kind : AngleKind) (d : ℚ) (hd : |d| ≤ DEG_MAX kind) :
    ∃ r : DD, dmsToDD (ddToDMS ⟨kind, d⟩ 2 false) = .ok r ∧ |r.degrees - d| ≤ 1/10000 := by
  have hf0 : 0 ≤ |d - (jsTrunc d : ℚ)| := abs_nonneg _
  have hf1 : |d - (jsTrunc d : ℚ)| < 1 := frac_lt_one d
  have hm00 : (0:ℤ) ≤ ⌊|d - (jsTrunc d : ℚ)| * 60⌋ :=
    Int.floor_nonneg.mpr (mul_nonneg hf0 (by norm_num))
  have hm00q : (0:ℚ) ≤ (⌊|d - (jsTrunc d : ℚ)| * 60⌋ : ℚ) := by exact_mod_cast hm00
  have hm059 : ⌊|d - (jsTrunc d : ℚ)| * 60⌋ ≤ 59 := by
    have h60 : |d - (jsTrunc d : ℚ)| * 60 < ((60:ℤ) : ℚ) := by push_cast; linarith
    have := Int.floor_lt.mpr h60
    omega
  have hm059q : (⌊|d - (jsTrunc d : ℚ)| * 60⌋ : ℚ) ≤ 59 := by exact_mod_cast hm059
  have hfloor_le : ((⌊|d - (jsTrunc d : ℚ)| * 60⌋ : ℤ) : ℚ) ≤ |d - (jsTrunc d : ℚ)| * 60 :=
    Int.floor_le _
  have hfloor_gt : |d - (jsTrunc d : ℚ)| * 60 <
      ((⌊|d - (jsTrunc d : ℚ)| * 60⌋ : ℤ) : ℚ) + 1 := Int.lt_floor_add_one _
  have hx0 : 0 ≤ |d - (jsTrunc d : ℚ)| * 3600 -
      ((⌊|d - (jsTrunc d : ℚ)| * 60⌋ : ℤ) : ℚ) * 60 := by linarith
  have hx60 : |d - (jsTrunc d : ℚ)| * 3600 -
      ((⌊|d - (jsTrunc d : ℚ)| * 60⌋ : ℤ) : ℚ) * 60 < 60 := by linarith
  have hs00 : 0 ≤ roundTo 2 (|d - (jsTrunc d : ℚ)| * 3600 -
      ((⌊|d - (jsTrunc d : ℚ)| * 60⌋ : ℤ) : ℚ) * 60) := roundTo2_nonneg _ hx0
  have hsc := roundTo2_close (|d - (jsTrunc d : ℚ)| * 3600 -
      ((⌊|d - (jsTrunc d : ℚ)| * 60⌋ : ℤ) : ℚ) * 60)
  rw [abs_le] at hsc
  by_cases hs60 : 60 ≤ roundTo 2 (|d - (jsTrunc d : ℚ)| * 3600 -
      ((⌊|d - (jsTrunc d : ℚ)| * 60⌋ : ℤ) : ℚ) * 60)
  · -- rounded seconds reached 60
    have hxge : 60 - 1/200 ≤ |d - (jsTrunc d : ℚ)| * 3600 -
        ((⌊|d - (jsTrunc d : ℚ)| * 60⌋ : ℤ) : ℚ) * 60 := by linarith [hsc.1, hsc.2]
    have hfpos : 0 < |d - (jsTrunc d : ℚ)| := by nlinarith [hm00q]
    have hkey := trunc_succ_le kind d hd hfpos
    by_cases hm59 : ((⌊|d - (jsTrunc d : ℚ)| * 60⌋ : ℤ) : ℚ) + 1 < 60
    · -- minutes stay below 60
      have heval := ddToDMS_eval_sroll kind d (jsTrunc d)
        ⌊|d - (jsTrunc d : ℚ)| * 60⌋ _ rfl rfl rfl hs60 hm59
      rw [heval]
      have hrange : |(jsTrunc d : ℚ)| +
          (((⌊|d - (jsTrunc d : ℚ)| * 60⌋ : ℤ) : ℚ) + 1) / 60 + (0:ℚ)/3600 ≤
          DEG_MAX kind := by
        have hm1 : (((⌊|d - (jsTrunc d : ℚ)| * 60⌋ : ℤ) : ℚ) + 1) / 60 < 1 := by linarith
        norm_num
        linarith
      rw [dmsToDD_ok kind _ _ 0 d (abs_nonneg _) (by linarith) hm59 le_rfl
        (by norm_num) hrange]
      refine ⟨_, rfl, ?_⟩
      by_cases hd0 : 0 ≤ d
      · rw [if_pos hd0]
        have hfeq := frac_eq_of_nonneg d hd0
        have htq : (0:ℚ) ≤ (jsTrunc d : ℚ) := by
          rw [jsTrunc_of_nonneg d hd0]
          exact_mod_cast Int.floor_nonneg.mpr hd0
        dsimp only
        rw [abs_of_nonneg htq, abs_le]
        rw [hfeq] at hxge hx60
        constructor <;> linarith
      · rw [if_neg hd0]
        have hfeq := frac_eq_of_neg d hd0
        have htq : (jsTrunc d : ℚ) ≤ 0 := by
          rw [jsTrunc_of_neg d hd0]
          have hc2 : (⌈d⌉ : ℤ) ≤ 0 :=
            Int.ceil_le.mpr (by exact_mod_cast le_of_lt (not_le.mp hd0))
          exact_mod_cast hc2
        dsimp only
        rw [abs_of_nonpos htq, abs_le]
        rw [hfeq] at hxge hx60
        constructor <;> linarith
    · -- minutes roll into the degree magnitude
      push_neg at hm59
      have heval := ddToDMS_eval_droll kind d (jsTrunc d)
        ⌊|d - (jsTrunc d : ℚ)| * 60⌋ _ rfl rfl rfl hs60 hm59
      rw [heval]
      have hm0eq : ((⌊|d - (jsTrunc d : ℚ)| * 60⌋ : ℤ) : ℚ) = 59 := by linarith
      have hrange : |(jsTrunc d : ℚ)| + 1 + (0:ℚ)/60 + (0:ℚ)/3600 ≤ DEG_MAX kind := by
        norm_num
        linarith
      rw [dmsToDD_ok kind (|(jsTrunc d : ℚ)| + 1) 0 0 d
        (by positivity) le_rfl (by norm_num) le_rfl (by norm_num) hrange]
      refine ⟨_, rfl, ?_⟩
      by_cases hd0 : 0 ≤ d
      · rw [if_pos hd0]
        have hfeq := frac_eq_of_nonneg d hd0
        have htq : (0:ℚ) ≤ (jsTrunc d : ℚ) := by
          rw [jsTrunc_of_nonneg d hd0]
          exact_mod_cast Int.floor_nonneg.mpr hd0
        dsimp only
        rw [abs_of_nonneg htq, abs_le]
        rw [hfeq] at hxge hf1
        constructor <;> linarith
      · rw [if_neg hd0]
        have hfeq := frac_eq_of_neg d hd0
        have htq : (jsTrunc d : ℚ) ≤ 0 := by
          rw [jsTrunc_of_neg d hd0]
          have hc2 : (⌈d⌉ : ℤ) ≤ 0 :=
            Int.ceil_le.mpr (by exact_mod_cast le_of_lt (not_le.mp hd0))
          exact_mod_cast hc2
        dsimp only
        rw [abs_of_nonpos htq, abs_le]
        rw [hfeq] at hxge hf1
        constructor <;> linarith
  · -- no rollover at all
    have hslt := not_le.mp hs60
    have hmlt : ((⌊|d - (jsTrunc d : ℚ)| * 60⌋ : ℤ) : ℚ) < 60 := by linarith
    have heval := ddToDMS_eval_noroll kind d (jsTrunc d)
      ⌊|d - (jsTrunc d : ℚ)| * 60⌋ _ rfl rfl rfl hslt hmlt
    rw [heval]
    have hrange : |(jsTrunc d : ℚ)| + ((⌊|d - (jsTrunc d : ℚ)| * 60⌋ : ℤ) : ℚ) / 60 +
        roundTo 2 (|d - (jsTrunc d : ℚ)| * 3600 -
          ((⌊|d - (jsTrunc d : ℚ)| * 60⌋ : ℤ) : ℚ) * 60) / 3600 ≤ DEG_MAX kind := by
      rcases eq_or_lt_of_le hf0 with hfz | hfpos
      · have hdt : d = (jsTrunc d : ℚ) := by
          have h0 : |d - (jsTrunc d : ℚ)| = 0 := hfz.symm
          have := abs_eq_zero.mp h0
          linarith [sub_eq_zero.mp this]
        rw [show |d - (jsTrunc d : ℚ)| = 0 from hfz.symm]
        norm_num [roundTo2_zero]
        rw [← hdt]
        exact hd
      · have hkey := trunc_succ_le kind d hd hfpos
        linarith
    rw [dmsToDD_ok kind _ _ _ d (abs_nonneg _) hm00q hmlt hs00 hslt hrange]
    refine ⟨_, rfl, ?_⟩
    by_cases hd0 : 0 ≤ d
    · rw [if_pos hd0]
      have hfeq := frac_eq_of_nonneg d hd0
      have htq : (0:ℚ) ≤ (jsTrunc d : ℚ) := by
        rw [jsTrunc_of_nonneg d hd0]
        exact_mod_cast Int.floor_nonneg.mpr hd0
      dsimp only
      rw [abs_of_nonneg htq, hfeq, abs_le]
      rw [hfeq] at hsc
      constructor <;> linarith [hsc.1, hsc.2]
    · rw [if_neg hd0]
      have hfeq := frac_eq_of_neg d hd0
      have htq : (jsTrunc d : ℚ) ≤ 0 := by
        rw [jsTrunc_of_neg d hd0]
        have hc2 : (⌈d⌉ : ℤ) ≤ 0 :=
          Int.ceil_le.mpr (by exact_mod_cast le_of_lt (not_le.mp hd0))
        exact_mod_cast hc2
      dsimp only
      rw [abs_of_nonpos htq, hfeq, abs_le]
      rw [hfeq] at hsc
      constructor <;> linarith [hsc.1, hsc.2]

/-! ### Claim-support concrete lemmas -/

theorem parseToDD_num_half : parseToDD (.num (1/2)) .lat = .ok ⟨.lat, 1/2⟩ := by
  simp only [parseToDD]
  rw [validateRange_ok .lat (1/2) (by norm_num [DEG_MAX]) (by norm_num [DEG_MAX])]

theorem composeTokens_neg45_30 :
    composeFromTokens [-45, 30] (some Hemisphere.N) .lat = .ok ⟨.lat, 91/2⟩ := by
  have hns : ¬ (Hemisphere.N = Hemisphere.S ∨ Hemisphere.N = Hemisphere.W) := by decide
  simp only [composeFromTokens,
    show |(-45 : ℚ)| = 45 from by norm_num,
    show |(30 : ℚ)| = 30 from by norm_num, if_neg hns]
  norm_num [mathSign, jsTrunc, validateRange, DEG_MAX]

theorem composeTokens_45_30_lon :
    composeFromTokens [45, 30] (some Hemisphere.N) .lon = .ok ⟨.lon, 91/2⟩ := by
  have hns : ¬ (Hemisphere.N = Hemisphere.S ∨ Hemisphere.N = Hemisphere.W) := by decide
  simp only [composeFromTokens,
    show |(45 : ℚ)| = 45 from by norm_num,
    show |(30 : ℚ)| = 30 from by norm_num, if_neg hns]
  norm_num [mathSign, jsTrunc, validateRange, DEG_MAX]

/-! ### Claim theorems -/

/-- C1 (amended): for every valid DD `d` outside the sliver
`(-1, -11999/12000]`, `dmToDD (ddToDM d)` succeeds and returns a value
within 1e-4 of `d`, for both axes and both signs.  On that sliver the
claim as stated fails: the DM rollover rounds the minutes of a
negative first-degree value up to 60 and rolls toward +∞, flipping the
sign (see the counterexample). -/
theorem C1_dmRoundTrip_amended (kind : AngleKind) (d : ℚ) (hd : |d| ≤ DEG_MAX kind)
    (hex : ¬(-1 < d ∧ d ≤ -(11999/12000))) :
    ∃ r : DD, dmToDD (ddToDM ⟨kind, d⟩ 2 false) = .ok r ∧ |r.degrees - d| ≤ 1/10000 :=
  dmRoundTrip kind d hd hex

/-- Witness for C1 at the concrete valid input `d = 1/2` (latitude). -/
theorem C1_witness :
    ∃ r : DD, dmToDD (ddToDM ⟨.lat, 1/2⟩ 2 false) = .ok r ∧ |r.degrees - 1/2| ≤ 1/10000 :=
  C1_dmRoundTrip_amended .lat (1/2)
    (by rw [show |(1:ℚ)/2| = 1/2 from abs_of_nonneg (by norm_num)]; norm_num [DEG_MAX])
    (by norm_num)

/-- C1 counterexample: at the valid latitude `d = -0.99999` the DM
round-trip returns `+1`, which is not within 1e-4 of `d` — `Math.trunc`
gives `-0`, `(-0) >= 0` holds, so the rollover goes to `+1` and the
hemisphere is recomputed from the rolled (positive) value. -/
theorem C1_counterexample :
    dmToDD (ddToDM ⟨.lat, -99999/100000⟩ 2 false) = .ok ⟨.lat, 1⟩ ∧
      ¬ (|((⟨.lat, 1⟩ : DD)).degrees - (-99999/100000)| ≤ 1/10000) := by
  constructor
  · rw [ddToDM_neg_edge]
    exact dmToDD_1_0
  · dsimp only
    rw [show (1 : ℚ) - (-99999/100000) = 199999/100000 from by norm_num,
      abs_of_nonneg (by norm_num : (0 : ℚ) ≤ 199999/100000)]
    norm_num

/-- C2: for every valid DD `d`, `dmsToDD (ddToDMS d)` succeeds and
returns a value within 1e-4 of `d`, for both axes and both signs (the
DMS path derives the hemisphere from the original signed value, so the
negative first-degree edge is correct here). -/
theorem C2_dmsRoundTrip (kind : AngleKind) (d : ℚ) (hd : |d| ≤ DEG_MAX kind) :
    ∃ r : DD, dmsToDD (ddToDMS ⟨kind, d⟩ 2 false) = .ok r ∧ |r.degrees - d| ≤ 1/10000 :=
  dmsRoundTrip kind d hd

/-- Witness for C2 at the concrete valid input `d = 1/2` (latitude). -/
theorem C2_witness :
    ∃ r : DD, dmsToDD (ddToDMS ⟨.lat, 1/2⟩ 2 false) = .ok r ∧ |r.degrees - 1/2| ≤ 1/10000 :=
  C2_dmsRoundTrip .lat (1/2)
    (by rw [show |(1:ℚ)/2| = 1/2 from abs_of_nonneg (by norm_num)]; norm_num [DEG_MAX])

/-- C3: `parseToDD` never returns a DD outside the axis range (90 for
latitude, 180 for longitude); the range check that every return path
passes through rejects any out-of-range composed value with the
axis-range error. -/
theorem C3_parseToDD_range :
    (∀ (input : JSInput) (kind : AngleKind) (dd : DD),
        parseToDD input kind = .ok dd → |dd.degrees| ≤ DEG_MAX kind) ∧
      (∀ (kind : AngleKind) (q : ℚ), DEG_MAX kind < |q| →
        validateRange kind q = .error (.axisRange kind q)) := by
  constructor
  · exact parseToDD_ok_range
  · intro kind q h
    simp only [validateRange]
    rw [if_pos]
    rcases lt_abs.mp h with h1 | h1
    · exact Or.inr h1
    · exact Or.inl (by linarith)

/-- Witness for C3 at the numeric input `1/2` (latitude) and the
out-of-range value 95. -/
theorem C3_witness :
    |((⟨.lat, (1:ℚ)/2⟩ : DD)).degrees| ≤ DEG_MAX .lat ∧
      validateRange .lat 95 = .error (.axisRange .lat 95) :=
  ⟨C3_parseToDD_range.1 (.num (1/2)) .lat ⟨.lat, 1/2⟩ parseToDD_num_half,
    C3_parseToDD_range.2 .lat 95 (by norm_num [DEG_MAX])⟩

/-- C4: in the two-numeric-token path (and the three-token path) the
degree magnitude is the truncated integer part of the absolute first
token, and the sign comes from the hemisphere letter when present —
overriding an explicit negative degree token, so
`parseToDD "-45 30 N" LAT` yields +45.5 — and otherwise from the sign
of the degree token, zero counting as positive (`hemiSign`). -/
theorem C4_two_token_sign :
    (∀ (kind : AngleKind) (d m : ℚ) (hemi : Option Hemisphere) (dd : DD),
        composeFromTokens [d, m] hemi kind = .ok dd →
          dd.degrees = hemiSign hemi d * ((jsTrunc |d| : ℚ) + |m| / 60)) ∧
      (∀ (kind : AngleKind) (d m s : ℚ) (rest : List ℚ)
          (hemi : Option Hemisphere) (dd : DD),
        composeFromTokens (d :: m :: s :: rest) hemi kind = .ok dd →
          dd.degrees = hemiSign hemi d * ((jsTrunc |d| : ℚ) + |m| / 60 + |s| / 3600)) ∧
      parseToDD (.str "-45 30 N") .lat = .ok ⟨.lat, 91/2⟩ :=
  ⟨composeFromTokens_two_ok, composeFromTokens_three_ok, parse_neg45_30_N⟩

/-- Witness for C4 at the concrete tokens `[-45, 30]` with hemisphere N. -/
theorem C4_witness :
    ((⟨.lat, 91/2⟩ : DD)).degrees =
      hemiSign (some Hemisphere.N) (-45) * ((jsTrunc |(-45 : ℚ)| : ℚ) + |(30 : ℚ)| / 60) :=
  C4_two_token_sign.1 .lat (-45) 30 (some Hemisphere.N) ⟨.lat, 91/2⟩ composeTokens_neg45_30

/-- C5: at 2-decimal minutes precision, 45.999° yields 45° 59.94'
(59.94 < 60, no rollover), while 45.99999° rounds its minutes to
exactly 60 and rolls over to 46° 0'. -/
theorem C5_rollover :
    ddToDM ⟨.lat, 45999/1000⟩ 2 false = ⟨.lat, 45, 5994/100, some .N⟩ ∧
      ddToDM ⟨.lat, 4599999/100000⟩ 2 false = ⟨.lat, 46, 0, some .N⟩ :=
  ⟨ddToDM_45999, ddToDM_4599999⟩

/-- C6 counterexample: with minutes = 70 and seconds = 70 the seconds
are out of `[0, 60)` yet `dmsToDD` does not raise the seconds-range
error (the minutes check fires first), so "seconds-range error iff
seconds outside [0, 60)" is false as stated. -/
theorem C6_counterexample :
    ¬ (dmsToDD ⟨.lat, 0, 70, 70, none⟩ = .error .secondsOutOfRange ↔
        ((70:ℚ) < 0 ∨ 60 ≤ (70:ℚ))) := by
  intro hIff
  have h2 := hIff.mpr (Or.inr (by norm_num))
  rw [dmsToDD_both_out] at h2
  simp at h2

/-- C6 (amended): `dmToDD` raises the minutes-range error iff minutes
∉ [0, 60); `dmsToDD` raises the minutes-range error iff minutes
∉ [0, 60) and the seconds-range error iff minutes are in range and
seconds ∉ [0, 60) (the minutes check fires first); on in-range inputs
each computes the base, applies the negative-degrees and hemisphere
sign rule (`dmSigned`/`dmsSigned`), validates against the axis range —
raising the axis-range error, never clamping — and returns the DD. -/
theorem C6_amended :
    (∀ dm : DM, dmToDD dm = .error .minutesOutOfRange ↔
        (dm.minutes < 0 ∨ 60 ≤ dm.minutes)) ∧
      (∀ dms : DMS, dmsToDD dms = .error .minutesOutOfRange ↔
        (dms.minutes < 0 ∨ 60 ≤ dms.minutes)) ∧
      (∀ dms : DMS, dmsToDD dms = .error .secondsOutOfRange ↔
        (¬(dms.minutes < 0 ∨ 60 ≤ dms.minutes) ∧
          (dms.seconds < 0 ∨ 60 ≤ dms.seconds))) ∧
      (∀ dm : DM, ¬(dm.minutes < 0 ∨ 60 ≤ dm.minutes) →
        dmToDD dm = if |dmSigned dm| ≤ DEG_MAX dm.kind then .ok ⟨dm.kind, dmSigned dm⟩
          else .error (.axisRange dm.kind (dmSigned dm))) ∧
      (∀ dms : DMS, ¬(dms.minutes < 0 ∨ 60 ≤ dms.minutes) →
        ¬(dms.seconds < 0 ∨ 60 ≤ dms.seconds) →
        dmsToDD dms = if |dmsSigned dms| ≤ DEG_MAX dms.kind then
            .ok ⟨dms.kind, dmsSigned dms⟩
          else .error (.axisRange dms.kind (dmsSigned dms))) :=
  ⟨dmToDD_minutes_err, dmsToDD_minutes_err, dmsToDD_seconds_err,
    dmToDD_value, dmsToDD_value⟩

/-- Witness for C6 at concrete DM inputs: minutes 70 (error) and
minutes 0 (value path). -/
theorem C6_witness :
    (dmToDD ⟨.lat, 1, 70, none⟩ = .error .minutesOutOfRange ↔
        ((70:ℚ) < 0 ∨ 60 ≤ (70:ℚ))) ∧
      dmToDD ⟨.lat, 1, 0, none⟩ =
        (if |dmSigned ⟨.lat, 1, 0, none⟩| ≤ DEG_MAX .lat then
            .ok ⟨.lat, dmSigned ⟨.lat, 1, 0, none⟩⟩
          else .error (.axisRange .lat (dmSigned ⟨.lat, 1, 0, none⟩))) :=
  ⟨C6_amended.1 ⟨.lat, 1, 70, none⟩,
    C6_amended.2.2.2.1 ⟨.lat, 1, 0, none⟩ (by norm_num)⟩

/-- C7: with clamping, `ddToDM {LAT, 95}` saturates to 90° 0' N;
without clamping, `parseToDD "95" LAT` raises the axis-range error. -/
theorem C7_clamp :
    ddToDM ⟨.lat, 95⟩ 2 true = ⟨.lat, 90, 0, some .N⟩ ∧
      parseToDD (.str "95") .lat = .error (.axisRange .lat 95) :=
  ⟨ddToDM_clamp95, parse_95_lat⟩

/-- C8: the three format literal cases at the default precisions. -/
theorem C8_format_literals :
    formatDD ⟨.lat, 488544/10000⟩ 5 = "48.85440° N" ∧
      formatDM ⟨.lat, 48, 51264/1000, some .N⟩ 2 = "48° 51.26\x27 N" ∧
      formatDMS ⟨.lat, 48, 51, 1584/100, some .N⟩ 2 = "48° 51\x27 15.84\x22 N" :=
  ⟨fmtDD_ex, fmtDM_ex, fmtDMS_ex⟩

/-- C9: `parseToDD` never checks that the hemisphere letter matches
the requested axis: a latitude letter with the LONGITUDE axis is
accepted (`parseToDD "45 30 N" LON = +45.5` with kind LON), and for
any token list N or E forces a non-negative result while S or W forces
a non-positive one, whatever the axis. -/
theorem C9_hemi_no_axis_check :
    (∀ (nums : List ℚ) (hh : Hemisphere) (kind : AngleKind) (dd : DD),
        composeFromTokens nums (some hh) kind = .ok dd →
          ((hh = .N ∨ hh = .E) → 0 ≤ dd.degrees) ∧
            ((hh = .S ∨ hh = .W) → dd.degrees ≤ 0)) ∧
      parseToDD (.str "45 30 N") .lon = .ok ⟨.lon, 91/2⟩ :=
  ⟨composeFromTokens_hemi_sign, parse_45_30_N_lon⟩

/-- Witness for C9 at the concrete tokens `[45, 30]` with hemisphere N
and the LONGITUDE axis. -/
theorem C9_witness : (0:ℚ) ≤ ((⟨.lon, 91/2⟩ : DD)).degrees :=
  (C9_hemi_no_axis_check.1 [45, 30] .N .lon ⟨.lon, 91/2⟩ composeTokens_45_30_lon).1
    (Or.inl rfl)
